import Mathlib

/-
  Verification of the evvie-time-tracker frontend calculation engine.

  Shallow embedding of the JavaScript source:
  - src/unnamed/part_003 : App.prototype.timeToMinutes, minutesToDuration,
    calculateTimeOverlap, detectAndDisplayOverlaps, getExclusionsForDate
  - src/static/js/app.js : App.prototype.calculateShiftHours, parseHours,
    renderChildSummaryFromShifts, navigatePeriod

  Dates are modelled as natural-number day offsets (ISO date strings compare
  lexicographically, which agrees with the numeric order of day offsets).
  Times are the (hours, minutes, seconds) triples parsed from HH:MM:SS
  strings.  JavaScript numbers are modelled as Nat where the code only ever
  produces non-negative integers, and as Rat where fractional arithmetic
  occurs (calculateShiftHours / parseHours).
-/

namespace Evvie

/-- Time of day as parsed from an HH:MM:SS string by String.split(':'). -/
structure Time where
  h : Nat
  m : Nat
  s : Nat
deriving DecidableEq, Repr

/-- part_003 App.prototype.timeToMinutes: destructures only the first two
components of timeStr.split(':'), so seconds are ignored and no end-of-day
normalization happens here. -/
def timeToMinutes (t : Time) : Nat :=
  t.h * 60 + t.m

/-- Duration rendered by minutesToDuration as the string hours:mm. -/
structure Duration where
  h : Nat
  m : Nat
deriving DecidableEq, Repr

/-- part_003 App.prototype.minutesToDuration. -/
def minutesToDuration (minutes : Nat) : Duration :=
  ⟨minutes / 60, minutes % 60⟩

/-- Modelled from the spec (IntervalMath, section 4.1): a time-to-minutes
conversion that first normalizes the 23:59:59 end-of-day sentinel to 24:00,
i.e. 1440 minutes.  The spec asserts this normalization happens before the
overlap comparison; the source code of timeToMinutes does not perform it. -/
def timeToMinutesNormalized (t : Time) : Nat :=
  if t = ⟨23, 59, 59⟩ then 1440 else t.h * 60 + t.m

/-- A shift record; names are abstract tokens. -/
structure Shift where
  employee_id : Nat
  child_id : Nat
  date : Nat
  start_time : Time
  end_time : Time
  employee_name : Nat
  child_name : Nat
deriving DecidableEq, Repr

/-- Core of part_003 App.prototype.calculateTimeOverlap, on minute offsets:
overlapStart = max of starts, overlapEnd = min of ends; a positive overlap
is returned only when overlapStart < overlapEnd. -/
def overlapMinutes (start1 end1 start2 end2 : Nat) : Option Nat :=
  if max start1 start2 < min end1 end2 then
    some (min end1 end2 - max start1 start2)
  else none

/-- part_003 App.prototype.calculateTimeOverlap on two shifts. -/
def calculateTimeOverlap (shift1 shift2 : Shift) : Option Duration :=
  (overlapMinutes (timeToMinutes shift1.start_time) (timeToMinutes shift1.end_time)
      (timeToMinutes shift2.start_time) (timeToMinutes shift2.end_time)).map
    minutesToDuration

inductive ConflictType where
  | employee
  | child
deriving DecidableEq, Repr

/-- Conflict record pushed by detectAndDisplayOverlaps (names omitted;
the record carries both shifts, which determine the names). -/
structure Conflict where
  ctype : ConflictType
  shift1 : Shift
  shift2 : Shift
  overlap_duration : Duration
deriving DecidableEq, Repr

/-- The double loop `for i in [0, len); for j in (i, len)` of
detectAndDisplayOverlaps: the body f is applied to every ordered pair of
positions i < j of the list, in loop order. -/
def pairScan {α β : Type} (f : α → α → Option β) : List α → List β
  | [] => []
  | x :: xs => xs.filterMap (f x) ++ pairScan f xs

/-- Body of the employee-group loop of part_003
App.prototype.detectAndDisplayOverlaps: skip same-child pairs, require equal
dates, and emit an employee-type conflict when calculateTimeOverlap is
positive. -/
def employeePair (shift1 shift2 : Shift) : Option Conflict :=
  if shift1.child_id = shift2.child_id then none
  else if shift1.date = shift2.date then
    (calculateTimeOverlap shift1 shift2).map
      (fun d => ⟨ConflictType.employee, shift1, shift2, d⟩)
  else none

/-- Body of the child-group loop of detectAndDisplayOverlaps: skip
same-employee pairs, require equal dates, and emit a child-type conflict
when calculateTimeOverlap is positive. -/
def childPair (shift1 shift2 : Shift) : Option Conflict :=
  if shift1.employee_id = shift2.employee_id then none
  else if shift1.date = shift2.date then
    (calculateTimeOverlap shift1 shift2).map
      (fun d => ⟨ConflictType.child, shift1, shift2, d⟩)
  else none

/-- Object.entries iterates integer-like keys in ascending numeric order;
the groups built by detectAndDisplayOverlaps are keyed by the numeric
employee/child ids, so the key iteration order is ascending over the
distinct ids occurring in the input. -/
def keysAsc (l : List Nat) : List Nat :=
  l.dedup.insertionSort (· ≤ ·)

/-- Employee-group half of detectAndDisplayOverlaps: group the shifts by
employee_id and run the pairwise loop inside each group. -/
def employeeConflicts (allShifts : List Shift) : List Conflict :=
  (keysAsc (allShifts.map (fun s => s.employee_id))).flatMap
    (fun e => pairScan employeePair (allShifts.filter (fun s => s.employee_id == e)))

/-- Child-group half of detectAndDisplayOverlaps. -/
def childConflicts (allShifts : List Shift) : List Conflict :=
  (keysAsc (allShifts.map (fun s => s.child_id))).flatMap
    (fun c => pairScan childPair (allShifts.filter (fun s => s.child_id == c)))

/-- part_003 App.prototype.detectAndDisplayOverlaps: the employee loop runs
first and pushes all employee-type conflicts, then the child loop pushes all
child-type conflicts. -/
def detectOverlaps (allShifts : List Shift) : List Conflict :=
  employeeConflicts allShifts ++ childConflicts allShifts

/-- Reference enumeration for the claim: one record per position pair
i < j of the input list whose two shifts share an employee_id, with the
employee-loop body applied to the pair. -/
def qualifyingEmployeeConflicts (allShifts : List Shift) : List Conflict :=
  pairScan
    (fun x y => if x.employee_id = y.employee_id then employeePair x y else none)
    allShifts

/-- Reference enumeration: one record per position pair i < j of the input
list whose two shifts share a child_id, with the child-loop body applied. -/
def qualifyingChildConflicts (allShifts : List Shift) : List Conflict :=
  pairScan
    (fun x y => if x.child_id = y.child_id then childPair x y else none)
    allShifts

/-- Return value of app.js App.prototype.calculateShiftHours, mirroring its
three formatting branches: `${hours}` when minutes = 0, `${hours}.5` when
minutes = 30, and `${hours}:${mm}` otherwise. -/
inductive HoursStr where
  | whole (h : ℤ)
  | half (h : ℤ)
  | hm (h : ℤ) (m : ℤ)
deriving DecidableEq, Repr

/-- Minute offset of a Time including the seconds component, as computed in
calculateShiftHours: hours * 60 + minutes + seconds / 60. -/
def timeTotalMinutes (t : Time) : ℚ :=
  (t.h : ℚ) * 60 + (t.m : ℚ) + (t.s : ℚ) / 60

/-- app.js calculateShiftHours sentinel step: an end time of exactly
23:59:59 is replaced by 24:00:00 before any arithmetic. -/
def normalizeEnd (t : Time) : Time :=
  if t = ⟨23, 59, 59⟩ then ⟨24, 0, 0⟩ else t

/-- Total minutes computed inside calculateShiftHours: after sentinel
normalization, if the end offset is smaller than the start offset, 24 hours
are added to the end offset ("Handle case where end time appears before
start time"), then the difference is taken. -/
def shiftTotalMinutes (startTime endTime : Time) : ℚ :=
  let startTotalMinutes := timeTotalMinutes startTime
  let endTotalMinutes0 := timeTotalMinutes (normalizeEnd endTime)
  let endTotalMinutes :=
    if endTotalMinutes0 < startTotalMinutes then endTotalMinutes0 + 24 * 60
    else endTotalMinutes0
  endTotalMinutes - startTotalMinutes

/-- app.js App.prototype.calculateShiftHours: hours = floor(total / 60),
minutes = Math.round(total % 60), then one of the three string formats.
Math.round rounds half toward positive infinity, as does Mathlib round. -/
def calculateShiftHours (startTime endTime : Time) : HoursStr :=
  let totalMinutes := shiftTotalMinutes startTime endTime
  let hours : ℤ := ⌊totalMinutes / 60⌋
  let minutes : ℤ := round (totalMinutes - 60 * (hours : ℚ))
  if minutes = 0 then HoursStr.whole hours
  else if minutes = 30 then HoursStr.half hours
  else HoursStr.hm hours minutes

/-- app.js App.prototype.parseHours: a string containing a colon is split
into hours + minutes / 60; otherwise parseFloat reads the decimal (the
whole branch yields the integer, the half branch the integer plus 0.5;
hours are never negative where this is applied). -/
def parseHours : HoursStr → ℚ
  | HoursStr.whole h => (h : ℚ)
  | HoursStr.half h => (h : ℚ) + 1 / 2
  | HoursStr.hm h m => (h : ℚ) + (m : ℚ) / 60

/-- hoursNum computed per shift in renderChildSummaryFromShifts:
parseHours applied to calculateShiftHours of the shift times. -/
def shiftHours (s : Shift) : ℚ :=
  parseHours (calculateShiftHours s.start_time s.end_time)

/-- Week-bucket test of renderChildSummaryFromShifts: a shift is in week 1
when its date is strictly before the boundary (period start + 7 days). -/
def isWeek1 (weekBoundary : Nat) (s : Shift) : Bool :=
  s.date < weekBoundary

/-- Per-employee accumulator entry of renderChildSummaryFromShifts. -/
structure WeeklyHours where
  week1 : ℚ
  week2 : ℚ
  total : ℚ
deriving DecidableEq, Repr

/-- Associative-list update mirroring the employeeWeeklyHours object: the
entry for a key is created as zeroes on first touch (appended in insertion
order, as for JavaScript string keys) and then updated in place. -/
def updateAssoc (acc : List (Nat × WeeklyHours)) (n : Nat)
    (g : WeeklyHours → WeeklyHours) : List (Nat × WeeklyHours) :=
  match acc with
  | [] => [(n, g ⟨0, 0, 0⟩)]
  | (k, w) :: rest =>
    if k = n then (k, g w) :: rest else (k, w) :: updateAssoc rest n g

/-- Loop body of renderChildSummaryFromShifts: add the shift's hours to the
week-1 or week-2 bucket of its employee, and always to the total. -/
def addShiftHours (weekBoundary : Nat) (acc : List (Nat × WeeklyHours))
    (s : Shift) : List (Nat × WeeklyHours) :=
  let hoursNum := shiftHours s
  updateAssoc acc s.employee_name (fun w =>
    if isWeek1 weekBoundary s then
      ⟨w.week1 + hoursNum, w.week2, w.total + hoursNum⟩
    else
      ⟨w.week1, w.week2 + hoursNum, w.total + hoursNum⟩)

/-- The employeeWeeklyHours accumulation of renderChildSummaryFromShifts,
given the week boundary (period start + 7 days). -/
def summarize (weekBoundary : Nat) (shifts : List Shift) :
    List (Nat × WeeklyHours) :=
  shifts.foldl (addShiftHours weekBoundary) []

/-- renderChildSummaryFromShifts computes the week boundary as the period
start date plus 7 days, then folds the shifts. -/
def renderSummary (periodStart : Nat) (shifts : List Shift) :
    List (Nat × WeeklyHours) :=
  summarize (periodStart + 7) shifts

/-- Reading the accumulator object at an employee name; absent keys read as
the zero record. -/
def lookupWH (acc : List (Nat × WeeklyHours)) (n : Nat) : WeeklyHours :=
  match acc with
  | [] => ⟨0, 0, 0⟩
  | (k, w) :: rest => if k = n then w else lookupWH rest n

/-- Specification-level sum: total hours of the shifts of employee name n
that fall in week 1. -/
def week1Sum (weekBoundary : Nat) (shifts : List Shift) (n : Nat) : ℚ :=
  ((shifts.filter (fun s => s.employee_name == n && isWeek1 weekBoundary s)).map
    shiftHours).sum

/-- Specification-level sum: total hours of the shifts of employee name n
that fall in week 2. -/
def week2Sum (weekBoundary : Nat) (shifts : List Shift) (n : Nat) : ℚ :=
  ((shifts.filter (fun s => s.employee_name == n && !isWeek1 weekBoundary s)).map
    shiftHours).sum

/-- Specification-level sum: total hours of all shifts of employee name n. -/
def totalSum (shifts : List Shift) (n : Nat) : ℚ :=
  ((shifts.filter (fun s => s.employee_name == n)).map shiftHours).sum

/-- Number.prototype.toFixed(2) followed by parseFloat, on the non-negative
hour totals: round to the nearest hundredth, ties away from zero (for
non-negative input this is round-half-up, as for Mathlib round). -/
def toFixed2 (q : ℚ) : ℚ :=
  ((round (q * 100) : ℤ) : ℚ) / 100

/-- Warning test of renderChildSummaryFromShifts:
parseFloat(emp.week1) > 40 with emp.week1 = hours.week1.toFixed(2); the
threshold 40 is a literal in the template, independent of any HourLimit. -/
def hoursWarning (q : ℚ) : Bool :=
  toFixed2 q > 40

/-- The pair (week-1 warning, week-2 warning) rendered for employee name n
by renderChildSummaryFromShifts. -/
def weekFlags (acc : List (Nat × WeeklyHours)) (n : Nat) : Bool × Bool :=
  (hoursWarning (lookupWH acc n).week1, hoursWarning (lookupWH acc n).week2)

/-- HourLimit record as configured in the application (config.js):
scoped to one (employee, child) pair. -/
structure HourLimit where
  employee_id : Nat
  child_id : Nat
  max_hours_per_week : ℚ
  alert_threshold : Option ℚ
deriving DecidableEq, Repr

/-- Modelled from the spec (HourAggregator, section 4.5): the breach flag
the claim describes, raised exactly when a week total exceeds the
max_hours_per_week of the matching HourLimit. -/
def specBreachFlag (limit : HourLimit) (weekTotal : ℚ) : Bool :=
  weekTotal > limit.max_hours_per_week

/-- Payroll period record. -/
structure Period where
  id : Nat
  start_date : Nat
  end_date : Nat
deriving DecidableEq, Repr

/-- app.js App.prototype.navigatePeriod: findIndex of the current period
(-1 when absent), add the direction, and update the current period only
when the new index is inside the array; otherwise nothing happens and the
current period is returned unchanged.  There is no error path. -/
def navigatePeriod (periods : List Period) (current : Period)
    (direction : ℤ) : Period :=
  let currentIndex : ℤ :=
    match periods.findIdx? (fun p => p.id == current.id) with
    | some i => (i : ℤ)
    | none => -1
  let newIndex := currentIndex + direction
  if 0 ≤ newIndex ∧ newIndex < (periods.length : ℤ) then
    periods.getD newIndex.toNat current
  else current

/-- Exclusion record; the name and reason strings are abstract tokens and
the time bounds are opaque payloads (the resolver never inspects them, it
only keeps or drops them). -/
structure Exclusion where
  id : Nat
  name : Nat
  start_date : Nat
  end_date : Nat
  start_time : Option Nat
  end_time : Option Nat
  employee_id : Option Nat
  child_id : Option Nat
  reason : Option Nat
deriving DecidableEq, Repr

instance : Inhabited Exclusion :=
  ⟨⟨0, 0, 0, 0, none, none, none, none, none⟩⟩

/-- Filter predicate of part_003 App.prototype.getExclusionsForDate: the
date must fall inside [start_date, end_date]; a child-scoped exclusion
(truthy child_id) additionally requires child_id === selectedChildId, while
employee-scoped and general exclusions always pass. -/
def exclusionApplies (dateStr : Nat) (selectedChildId : Option Nat)
    (e : Exclusion) : Bool :=
  if e.start_date ≤ dateStr ∧ dateStr ≤ e.end_date then
    match e.child_id with
    | some c => some c == selectedChildId
    | none => true
  else false

/-- Map step of getExclusionsForDate: copy the record, then null out the
time bounds according to the position of the date inside the span
(first/last/middle/single day). -/
def adjustExclusion (dateStr : Nat) (e : Exclusion) : Exclusion :=
  let isFirstDay := dateStr = e.start_date
  let isLastDay := dateStr = e.end_date
  if isFirstDay ∧ isLastDay then e
  else if isFirstDay then { e with end_time := none }
  else if isLastDay then { e with start_time := none }
  else { e with start_time := none, end_time := none }

/-- part_003 App.prototype.getExclusionsForDate, functional view: filter
the applicable exclusions and return adjusted copies. -/
def getExclusionsForDate (dateStr : Nat) (selectedChildId : Option Nat)
    (currentExclusions : List Exclusion) : List Exclusion :=
  (currentExclusions.filter (exclusionApplies dateStr selectedChildId)).map
    (adjustExclusion dateStr)

/-- Modelled from the spec (ExclusionResolver, section 4.3): the per-day
window recomputation in the claim's own terms — single-day spans keep both
bounds, the first day of a multi-day span keeps start_time and drops
end_time, the last day drops start_time and keeps end_time, middle days
drop both. -/
def adjustExclusionSpec (dateStr : Nat) (e : Exclusion) : Exclusion :=
  if e.start_date = e.end_date then e
  else if dateStr = e.start_date then { e with end_time := none }
  else if dateStr = e.end_date then { e with start_time := none }
  else { e with start_time := none, end_time := none }

/-- Heap model of getExclusionsForDate for the frame claim: records live in
a store addressed by references.  The body `const adjustedExclusion =
{...exclusion}` allocates a fresh copy at the end of the store and the
subsequent field writes hit only that copy; the function returns the
references of the adjusted copies. -/
def resolveStep (dateStr : Nat) (st : List Exclusion × List Nat) (r : Nat) :
    List Exclusion × List Nat :=
  let heap := st.1
  let original := heap.getD r default
  let adjustedExclusion := adjustExclusion dateStr original
  (heap ++ [adjustedExclusion], st.2 ++ [heap.length])

/-- Heap-model version of getExclusionsForDate: filter the applicable input
references, then allocate one adjusted copy per kept reference.  Returns
the final store and the references of the returned views. -/
def getExclusionsForDateHeap (dateStr : Nat) (selectedChildId : Option Nat)
    (heap : List Exclusion) (refs : List Nat) : List Exclusion × List Nat :=
  let kept := refs.filter
    (fun r => exclusionApplies dateStr selectedChildId (heap.getD r default))
  kept.foldl (resolveStep dateStr) (heap, [])

/-- Scenario shift: employee 1, child 1, 09:00-13:00. -/
def shiftC1a : Shift :=
  ⟨1, 1, 0, ⟨9, 0, 0⟩, ⟨13, 0, 0⟩, 1, 1⟩

/-- Scenario shift: employee 1, child 2, 12:00-15:00, same date. -/
def shiftC1b : Shift :=
  ⟨1, 2, 0, ⟨12, 0, 0⟩, ⟨15, 0, 0⟩, 1, 2⟩

/-- Counterexample shift: employee 1, child 1, 23:59:00-23:59:59. -/
def shiftC3a : Shift :=
  ⟨1, 1, 0, ⟨23, 59, 0⟩, ⟨23, 59, 59⟩, 1, 1⟩

/-- Counterexample shift: employee 1, child 2, 23:00:00-23:59:59. -/
def shiftC3b : Shift :=
  ⟨1, 2, 0, ⟨23, 0, 0⟩, ⟨23, 59, 59⟩, 1, 2⟩

/-- Scenario shift: a 20-hour shift on the first day of the period. -/
def shiftC5a : Shift :=
  ⟨1, 1, 0, ⟨0, 0, 0⟩, ⟨20, 0, 0⟩, 0, 1⟩

/-- Scenario shift: a 21-hour shift on the second day of the period. -/
def shiftC5b : Shift :=
  ⟨1, 1, 1, ⟨0, 0, 0⟩, ⟨21, 0, 0⟩, 0, 1⟩

/-- An HourLimit of 45 hours per week for the scenario pair: the code's
fixed threshold of 40 ignores it. -/
def hourLimitC5 : HourLimit :=
  ⟨1, 1, 45, none⟩

/-- Witness shift for the week-bucket claim: date 3 of a period starting
at day 0. -/
def shiftC8 : Shift :=
  ⟨1, 1, 3, ⟨9, 0, 0⟩, ⟨17, 0, 0⟩, 2, 1⟩

/-- Witness shifts for order independence. -/
def shiftC9a : Shift :=
  ⟨1, 1, 0, ⟨9, 0, 0⟩, ⟨12, 0, 0⟩, 0, 1⟩

/-- Second witness shift for order independence, falling in week 2. -/
def shiftC9b : Shift :=
  ⟨1, 1, 9, ⟨10, 0, 0⟩, ⟨16, 0, 0⟩, 0, 1⟩

/-- First period of the navigation counterexample. -/
def periodA : Period :=
  ⟨1, 0, 13⟩

/-- Second period of the navigation counterexample. -/
def periodB : Period :=
  ⟨2, 14, 27⟩

/-- Witness exclusion for the frame claim: a multi-day span containing
day 5 with both time bounds set. -/
def exclusionC10 : Exclusion :=
  ⟨7, 3, 4, 6, some 540, some 720, none, none, none⟩

/-- Witness exclusion for the resolver claim: child-scoped to child 2,
spanning days 4 to 6 with both time bounds set. -/
def exclusionC4 : Exclusion :=
  ⟨8, 4, 4, 6, some 540, some 720, none, some 2, none⟩

/-- C2: the pairwise overlap function returns a positive duration equal to
min(aEnd, bEnd) - max(aStart, bStart) exactly when
max(aStart, bStart) < min(aEnd, bEnd) and none otherwise; it is symmetric
in its two intervals; and it returns none whenever aEnd ≤ bStart or
bEnd ≤ aStart, so touching boundaries are not an overlap. -/
theorem overlap_minutes_correct (aStart aEnd bStart bEnd : Nat) :
    (∀ d, overlapMinutes aStart aEnd bStart bEnd = some d →
      max aStart bStart < min aEnd bEnd ∧
        d = min aEnd bEnd - max aStart bStart ∧ 0 < d) ∧
    (max aStart bStart < min aEnd bEnd →
      overlapMinutes aStart aEnd bStart bEnd =
        some (min aEnd bEnd - max aStart bStart)) ∧
    (¬ max aStart bStart < min aEnd bEnd →
      overlapMinutes aStart aEnd bStart bEnd = none) ∧
    overlapMinutes aStart aEnd bStart bEnd =
      overlapMinutes bStart bEnd aStart aEnd ∧
    (aEnd ≤ bStart ∨ bEnd ≤ aStart →
      overlapMinutes aStart aEnd bStart bEnd = none) := by
  refine ⟨?_, ?_, ?_, ?_, ?_⟩
  · intro d h
    by_cases hlt : max aStart bStart < min aEnd bEnd
    · rw [overlapMinutes, if_pos hlt, Option.some.injEq] at h
      exact ⟨hlt, h.symm, by omega⟩
    · rw [overlapMinutes, if_neg hlt] at h
      exact absurd h (by simp)
  · intro hlt
    rw [overlapMinutes, if_pos hlt]
  · intro hlt
    rw [overlapMinutes, if_neg hlt]
  · rw [overlapMinutes, overlapMinutes, Nat.max_comm, Nat.min_comm]
  · intro h
    have hlt : ¬ max aStart bStart < min aEnd bEnd := by omega
    rw [overlapMinutes, if_neg hlt]

theorem overlap_minutes_correct_witness :
    overlapMinutes 540 780 720 900 = some 60 ∧
    overlapMinutes 540 780 780 900 = none :=
  ⟨((overlap_minutes_correct 540 780 720 900).2.1 (by decide)).trans (by decide),
    (overlap_minutes_correct 540 780 780 900).2.2.2.2 (Or.inl (by decide))⟩

/-- C3, counterexample: the conversion used by conflict detection maps the
23:59:59 sentinel to 1439 minutes, not 1440, so two same-employee shifts
ending at 23:59:59 that would overlap for one minute under the normalized
reading produce no overlap in the code. -/
theorem sentinel_not_normalized_counterexample :
    timeToMinutes ⟨23, 59, 59⟩ = 1439 ∧
    calculateTimeOverlap shiftC3a shiftC3b = none ∧
    overlapMinutes (timeToMinutesNormalized shiftC3a.start_time)
        (timeToMinutesNormalized shiftC3a.end_time)
        (timeToMinutesNormalized shiftC3b.start_time)
        (timeToMinutesNormalized shiftC3b.end_time) = some 1 := by
  refine ⟨rfl, ?_, ?_⟩ <;> decide

/-- C3, amended: the 23:59:59 sentinel is normalized to 24:00 in the
duration computation (calculateShiftHours treats an end of 23:59:59
exactly like 24:00:00), but not in conflict detection, whose timeToMinutes
ignores the seconds component and yields 1439 minutes for the sentinel. -/
theorem sentinel_normalization_scope :
    (∀ t : Time,
      calculateShiftHours t ⟨23, 59, 59⟩ = calculateShiftHours t ⟨24, 0, 0⟩) ∧
    timeToMinutes ⟨23, 59, 59⟩ = 1439 := by
  constructor
  · intro t
    simp [calculateShiftHours, shiftTotalMinutes, normalizeEnd]
  · rfl

/-- C7, counterexample: a cross-midnight input (end 02:00:00 before start
22:00:00) does not fail; calculateShiftHours wraps it into the next day and
returns the 4-hour duration. -/
theorem cross_midnight_counterexample :
    calculateShiftHours ⟨22, 0, 0⟩ ⟨2, 0, 0⟩ = HoursStr.whole 4 := by
  have htot : shiftTotalMinutes ⟨22, 0, 0⟩ ⟨2, 0, 0⟩ = 240 := by
    simp [shiftTotalMinutes, timeTotalMinutes, normalizeEnd]
    norm_num
  simp [calculateShiftHours, htot]
  norm_num

/-- C7, amended: the duration computation never rejects its input.  When
the end offset is below the start offset after sentinel normalization, 24
hours are added to the end offset, treating the shift as extending into the
next day; when the two offsets are equal the result is the zero duration. -/
theorem duration_never_fails :
    (∀ startTime endTime : Time,
      timeTotalMinutes (normalizeEnd endTime) < timeTotalMinutes startTime →
      shiftTotalMinutes startTime endTime =
        timeTotalMinutes (normalizeEnd endTime) + 1440 -
          timeTotalMinutes startTime) ∧
    (∀ startTime endTime : Time,
      timeTotalMinutes (normalizeEnd endTime) = timeTotalMinutes startTime →
      calculateShiftHours startTime endTime = HoursStr.whole 0) := by
  constructor
  · intro s e h
    simp only [shiftTotalMinutes, if_pos h]
    ring_nf
  · intro s e h
    have htot : shiftTotalMinutes s e = 0 := by
      simp only [shiftTotalMinutes, h, lt_self_iff_false, if_false]
      ring_nf
    simp [calculateShiftHours, htot]

theorem duration_never_fails_witness :
    shiftTotalMinutes ⟨22, 0, 0⟩ ⟨2, 0, 0⟩ =
      timeTotalMinutes (normalizeEnd ⟨2, 0, 0⟩) + 1440 -
        timeTotalMinutes ⟨22, 0, 0⟩ ∧
    calculateShiftHours ⟨5, 0, 0⟩ ⟨5, 0, 0⟩ = HoursStr.whole 0 :=
  ⟨duration_never_fails.1 ⟨22, 0, 0⟩ ⟨2, 0, 0⟩
      (by simp [timeTotalMinutes, normalizeEnd]; norm_num),
    duration_never_fails.2 ⟨5, 0, 0⟩ ⟨5, 0, 0⟩
      (by simp [timeTotalMinutes, normalizeEnd])⟩

/-- C6, counterexample: navigating backwards from the first period does not
fail with an OutOfRange error — navigatePeriod has no error path at all; it
leaves the current period unchanged. -/
theorem navigate_boundary_counterexample :
    navigatePeriod [periodA, periodB] periodA (-1) = periodA := by
  decide

/-- C6, amended: with direction +1 or -1 the navigation moves to the
adjacent period in sequence order when it exists; past either boundary it
is a silent no-op returning the unchanged current period (no wraparound and
no error). -/
theorem navigate_adjacent_or_noop (periods : List Period) (current : Period)
    (direction : ℤ) (i : Nat)
    (hfind : periods.findIdx? (fun p => p.id == current.id) = some i) :
    (0 ≤ (i : ℤ) + direction ∧ (i : ℤ) + direction < (periods.length : ℤ) →
      navigatePeriod periods current direction =
        periods.getD ((i : ℤ) + direction).toNat current) ∧
    ((i : ℤ) + direction < 0 ∨ (periods.length : ℤ) ≤ (i : ℤ) + direction →
      navigatePeriod periods current direction = current) := by
  constructor
  · intro h
    simp only [navigatePeriod, hfind]
    rw [if_pos h]
  · intro h
    have hneg : ¬ (0 ≤ (i : ℤ) + direction ∧
        (i : ℤ) + direction < (periods.length : ℤ)) := by omega
    simp only [navigatePeriod, hfind]
    rw [if_neg hneg]

theorem navigate_adjacent_or_noop_witness :
    navigatePeriod [periodA, periodB] periodA 1 =
      List.getD [periodA, periodB] (((0 : ℤ) + 1).toNat) periodA :=
  (navigate_adjacent_or_noop [periodA, periodB] periodA 1 0 (by decide)).1
    (by decide)

/-- Inside the containment range, the code's first/last-day case analysis
coincides with the spec's single/first/last/middle-day description. -/
theorem adjustExclusion_eq_spec (dateStr : Nat) (e : Exclusion)
    (h1 : e.start_date ≤ dateStr) (h2 : dateStr ≤ e.end_date) :
    adjustExclusion dateStr e = adjustExclusionSpec dateStr e := by
  unfold adjustExclusion adjustExclusionSpec
  by_cases hf : dateStr = e.start_date <;> by_cases hl : dateStr = e.end_date
  · have hse : e.start_date = e.end_date := by omega
    rw [if_pos ⟨hf, hl⟩, if_pos hse]
  · have hse : ¬ e.start_date = e.end_date := by omega
    rw [if_neg (by exact fun hc => hl hc.2), if_pos hf, if_neg hse]
  · have hse : ¬ e.start_date = e.end_date := by omega
    rw [if_neg (by exact fun hc => hf hc.1), if_neg hf, if_pos hl, if_neg hse]
  · have hse : ¬ e.start_date = e.end_date := by omega
    rw [if_neg (by exact fun hc => hf hc.1), if_neg hf, if_neg hl, if_neg hse]

/-- C4: the views returned for a date are exactly the adjusted copies of
those exclusions whose [start_date, end_date] range contains the date and
that are not child-scoped to a different child (employee-scoped and general
exclusions always pass), where the adjustment keeps start_time and drops
end_time on the first day of a multi-day span, drops start_time and keeps
end_time on the last day, drops both on middle days, and keeps both on a
single-day span. -/
theorem exclusions_for_date_correct (dateStr : Nat) (scope : Option Nat)
    (exs : List Exclusion) (v : Exclusion) :
    v ∈ getExclusionsForDate dateStr scope exs ↔
      ∃ e, e ∈ exs ∧ (e.start_date ≤ dateStr ∧ dateStr ≤ e.end_date) ∧
        (∀ c, e.child_id = some c → scope = some c) ∧
        v = adjustExclusionSpec dateStr e := by
  unfold getExclusionsForDate
  rw [List.mem_map]
  constructor
  · rintro ⟨e, he, hv⟩
    rw [List.mem_filter] at he
    obtain ⟨hin, happ⟩ := he
    unfold exclusionApplies at happ
    split at happ
    · next hrange =>
      refine ⟨e, hin, hrange, ?_, ?_⟩
      · intro c hc
        rw [hc] at happ
        simp only [beq_iff_eq] at happ
        exact happ.symm
      · rw [← hv, adjustExclusion_eq_spec dateStr e hrange.1 hrange.2]
    · next => exact absurd happ (by simp)
  · rintro ⟨e, hin, hrange, hscope, hv⟩
    refine ⟨e, ?_, ?_⟩
    · rw [List.mem_filter]
      refine ⟨hin, ?_⟩
      unfold exclusionApplies
      rw [if_pos hrange]
      cases hc : e.child_id with
      | none => rfl
      | some c => simp [(hscope c hc).symm]
    · rw [hv, adjustExclusion_eq_spec dateStr e hrange.1 hrange.2]

theorem exclusions_for_date_correct_witness :
    adjustExclusionSpec 5 exclusionC4 ∈
      getExclusionsForDate 5 (some 2) [exclusionC4] :=
  (exclusions_for_date_correct 5 (some 2) [exclusionC4]
      (adjustExclusionSpec 5 exclusionC4)).mpr
    ⟨exclusionC4, List.mem_singleton.mpr rfl, ⟨by decide, by decide⟩,
      fun c hc => hc, rfl⟩

/-- The resolver's fold only allocates: the final store extends the
initial one, and every returned reference is either carried over or points
past the initial store. -/
theorem foldl_resolveStep_extends (dateStr : Nat) (rs : List Nat) :
    ∀ st : List Exclusion × List Nat,
      (∃ ex : List Exclusion,
        (rs.foldl (resolveStep dateStr) st).1 = st.1 ++ ex) ∧
      (∀ r ∈ (rs.foldl (resolveStep dateStr) st).2,
        r ∈ st.2 ∨ st.1.length ≤ r) := by
  induction rs with
  | nil =>
    intro st
    exact ⟨⟨[], by simp⟩, fun r hr => Or.inl hr⟩
  | cons r0 rs ih =>
    intro st
    obtain ⟨⟨ex, hex⟩, hrefs⟩ := ih (resolveStep dateStr st r0)
    constructor
    · refine ⟨adjustExclusion dateStr (st.1.getD r0 default) :: ex, ?_⟩
      rw [List.foldl_cons, hex]
      show (st.1 ++ [_]) ++ ex = st.1 ++ _ :: ex
      rw [List.append_assoc, List.singleton_append]
    · intro r hr
      rw [List.foldl_cons] at hr
      rcases hrefs r hr with hmem | hlen
      · rcases List.mem_append.mp hmem with hold | hnew
        · exact Or.inl hold
        · exact Or.inr (le_of_eq (List.mem_singleton.mp hnew).symm)
      · refine Or.inr ?_
        have hlen2 : (resolveStep dateStr st r0).1.length = st.1.length + 1 := by
          show (st.1 ++ [_]).length = st.1.length + 1
          simp
        omega

/-- C10: the per-day exclusion resolver never mutates its input.  In the
store model, every cell below the original store length is unchanged after
the call (so every input record keeps its original start_time and
end_time), and every returned view is a fresh reference allocated past the
original store. -/
theorem resolver_no_mutation (dateStr : Nat) (scope : Option Nat)
    (heap : List Exclusion) (refs : List Nat) (i : Nat)
    (h : i < heap.length) :
    ((getExclusionsForDateHeap dateStr scope heap refs).1)[i]? = heap[i]? ∧
    ∀ r ∈ (getExclusionsForDateHeap dateStr scope heap refs).2,
      heap.length ≤ r := by
  obtain ⟨⟨ex, hex⟩, hrefs⟩ := foldl_resolveStep_extends dateStr
    (refs.filter
      (fun r => exclusionApplies dateStr scope (heap.getD r default)))
    (heap, [])
  constructor
  · show ((refs.filter _).foldl (resolveStep dateStr) (heap, [])).1[i]? = _
    rw [hex, List.getElem?_append, if_pos h]
  · intro r hr
    rcases hrefs r hr with hmem | hlen
    · exact absurd hmem (List.not_mem_nil r)
    · exact hlen

theorem resolver_no_mutation_witness :
    ((getExclusionsForDateHeap 5 none [exclusionC10] [0]).1)[0]? =
        [exclusionC10][0]? ∧
      ∀ r ∈ (getExclusionsForDateHeap 5 none [exclusionC10] [0]).2,
        List.length [exclusionC10] ≤ r :=
  resolver_no_mutation 5 none [exclusionC10] [0] 0 (by decide)

/-- Reading the accumulator after an update: the updated key holds the
transformed value (with a zero record created on first touch) and every
other key is untouched. -/
theorem lookupWH_updateAssoc (acc : List (Nat × WeeklyHours)) (n : Nat)
    (g : WeeklyHours → WeeklyHours) (m : Nat) :
    lookupWH (updateAssoc acc n g) m =
      if n = m then g (lookupWH acc m) else lookupWH acc m := by
  induction acc with
  | nil =>
    by_cases h : n = m <;> simp [updateAssoc, lookupWH, h]
  | cons kw rest ih =>
    obtain ⟨k, w⟩ := kw
    by_cases hkn : k = n
    · subst hkn
      by_cases hkm : k = m <;>
        simp [updateAssoc, lookupWH, hkm]
    · by_cases hkm : k = m
      · have hnm : ¬ n = m := fun hc => hkn (hkm.trans hc.symm)
        have hmn : ¬ m = n := fun hc => hkn (hkm.trans hc)
        simp [updateAssoc, lookupWH, hkn, hkm, hnm, hmn]
      · simp [updateAssoc, lookupWH, hkn, hkm, ih]

/-- Unfolding the summary fold at one employee name: the result is the
initial accumulator's entry plus the week-1, week-2 and total sums of the
scanned shifts for that name. -/
theorem summarize_foldl_lookup (b : Nat) (shifts : List Shift) :
    ∀ (acc : List (Nat × WeeklyHours)) (n : Nat),
      lookupWH (shifts.foldl (addShiftHours b) acc) n =
        ⟨(lookupWH acc n).week1 + week1Sum b shifts n,
          (lookupWH acc n).week2 + week2Sum b shifts n,
          (lookupWH acc n).total + totalSum shifts n⟩ := by
  induction shifts with
  | nil =>
    intro acc n
    simp [week1Sum, week2Sum, totalSum]
  | cons s rest ih =>
    intro acc n
    rw [List.foldl_cons, ih]
    rw [show addShiftHours b acc s = updateAssoc acc s.employee_name
        (fun w => if isWeek1 b s then
            ⟨w.week1 + shiftHours s, w.week2, w.total + shiftHours s⟩
          else ⟨w.week1, w.week2 + shiftHours s, w.total + shiftHours s⟩)
      from rfl]
    rw [lookupWH_updateAssoc]
    by_cases hn : s.employee_name = n
    · rw [if_pos hn]
      by_cases hw : isWeek1 b s
      · rw [if_pos hw]
        have h1 : week1Sum b (s :: rest) n = shiftHours s + week1Sum b rest n := by
          simp [week1Sum, List.filter_cons, hn, hw]
        have h2 : week2Sum b (s :: rest) n = week2Sum b rest n := by
          simp [week2Sum, List.filter_cons, hn, hw]
        have h3 : totalSum (s :: rest) n = shiftHours s + totalSum rest n := by
          simp [totalSum, List.filter_cons, hn]
        rw [h1, h2, h3]
        simp only [WeeklyHours.mk.injEq]
        refine ⟨by ring_nf, by ring_nf, by ring_nf⟩
      · rw [if_neg hw]
        have h1 : week1Sum b (s :: rest) n = week1Sum b rest n := by
          simp [week1Sum, List.filter_cons, hn, hw]
        have h2 : week2Sum b (s :: rest) n = shiftHours s + week2Sum b rest n := by
          simp [week2Sum, List.filter_cons, hn, hw]
        have h3 : totalSum (s :: rest) n = shiftHours s + totalSum rest n := by
          simp [totalSum, List.filter_cons, hn]
        rw [h1, h2, h3]
        simp only [WeeklyHours.mk.injEq]
        refine ⟨by ring_nf, by ring_nf, by ring_nf⟩
    · rw [if_neg hn]
      have h1 : week1Sum b (s :: rest) n = week1Sum b rest n := by
        simp [week1Sum, List.filter_cons, hn]
      have h2 : week2Sum b (s :: rest) n = week2Sum b rest n := by
        simp [week2Sum, List.filter_cons, hn]
      have h3 : totalSum (s :: rest) n = totalSum rest n := by
        simp [totalSum, List.filter_cons, hn]
      rw [h1, h2, h3]

/-- C8: for a period starting at day ps, a shift dated within the period is
assigned to week 1 exactly when its date lies in [ps, ps+6] and to week 2
exactly when its date lies in [ps+7, ps+13]; the boundary is the period's
own start date plus 7 days, and a single-shift summary books the hours into
the bucket chosen by that test. -/
theorem week_bucket_assignment (ps : Nat) (s : Shift)
    (h1 : ps ≤ s.date) (h2 : s.date ≤ ps + 13) :
    (isWeek1 (ps + 7) s = true ↔ ps ≤ s.date ∧ s.date ≤ ps + 6) ∧
    (isWeek1 (ps + 7) s = false ↔ ps + 7 ≤ s.date ∧ s.date ≤ ps + 13) ∧
    lookupWH (renderSummary ps [s]) s.employee_name =
      (if isWeek1 (ps + 7) s then ⟨shiftHours s, 0, shiftHours s⟩
        else (⟨0, shiftHours s, shiftHours s⟩ : WeeklyHours)) := by
  refine ⟨?_, ?_, ?_⟩
  · simp only [isWeek1, decide_eq_true_eq]
    omega
  · simp only [isWeek1, decide_eq_false_iff_not]
    omega
  · by_cases hw : isWeek1 (ps + 7) s <;>
      simp [renderSummary, summarize, addShiftHours, updateAssoc, lookupWH, hw]

theorem week_bucket_assignment_witness :
    (isWeek1 (0 + 7) shiftC8 = true ↔ 0 ≤ shiftC8.date ∧ shiftC8.date ≤ 0 + 6) ∧
    (isWeek1 (0 + 7) shiftC8 = false ↔
      0 + 7 ≤ shiftC8.date ∧ shiftC8.date ≤ 0 + 13) ∧
    lookupWH (renderSummary 0 [shiftC8]) shiftC8.employee_name =
      (if isWeek1 (0 + 7) shiftC8 then ⟨shiftHours shiftC8, 0, shiftHours shiftC8⟩
        else (⟨0, shiftHours shiftC8, shiftHours shiftC8⟩ : WeeklyHours)) :=
  week_bucket_assignment 0 shiftC8 (by decide) (by decide)

/-- C9: the period summary is order-independent (and, as the reflexive
case, idempotent): summarizing any permutation of the shift list yields
identical week-1, week-2 and total values for every employee name. -/
theorem summary_order_independent (b : Nat) (l1 l2 : List Shift)
    (hp : l1.Perm l2) (n : Nat) :
    lookupWH (summarize b l1) n = lookupWH (summarize b l2) n := by
  show lookupWH (l1.foldl (addShiftHours b) []) n =
    lookupWH (l2.foldl (addShiftHours b) []) n
  rw [summarize_foldl_lookup b l1 [] n, summarize_foldl_lookup b l2 [] n]
  have e1 : week1Sum b l1 n = week1Sum b l2 n :=
    List.Perm.sum_eq (List.Perm.map _ (List.Perm.filter _ hp))
  have e2 : week2Sum b l1 n = week2Sum b l2 n :=
    List.Perm.sum_eq (List.Perm.map _ (List.Perm.filter _ hp))
  have e3 : totalSum l1 n = totalSum l2 n :=
    List.Perm.sum_eq (List.Perm.map _ (List.Perm.filter _ hp))
  rw [e1, e2, e3]

theorem summary_order_independent_witness :
    lookupWH (summarize 7 [shiftC9a, shiftC9b]) 0 =
      lookupWH (summarize 7 [shiftC9b, shiftC9a]) 0 :=
  summary_order_independent 7 [shiftC9a, shiftC9b] [shiftC9b, shiftC9a]
    (List.Perm.swap shiftC9b shiftC9a []) 0

theorem shiftC5a_hours : shiftHours shiftC5a = 20 := by
  have htot : shiftTotalMinutes ⟨0, 0, 0⟩ ⟨20, 0, 0⟩ = 1200 := by
    simp [shiftTotalMinutes, timeTotalMinutes, normalizeEnd]
    norm_num
  have hcalc : calculateShiftHours ⟨0, 0, 0⟩ ⟨20, 0, 0⟩ = HoursStr.whole 20 := by
    simp [calculateShiftHours, htot]
    norm_num
  simp [shiftHours, shiftC5a, hcalc, parseHours]

theorem shiftC5b_hours : shiftHours shiftC5b = 21 := by
  have htot : shiftTotalMinutes ⟨0, 0, 0⟩ ⟨21, 0, 0⟩ = 1260 := by
    simp [shiftTotalMinutes, timeTotalMinutes, normalizeEnd]
    norm_num
  have hcalc : calculateShiftHours ⟨0, 0, 0⟩ ⟨21, 0, 0⟩ = HoursStr.whole 21 := by
    simp [calculateShiftHours, htot]
    norm_num
  simp [shiftHours, shiftC5b, hcalc, parseHours]

/-- The scenario summary: one employee with 20 + 21 = 41 hours in week 1
and no week-2 shifts. -/
theorem scenario_summary_41 :
    lookupWH (renderSummary 0 [shiftC5a, shiftC5b]) 0 =
      ⟨41, 0, 41⟩ := by
  show lookupWH ([shiftC5a, shiftC5b].foldl (addShiftHours (0 + 7)) []) 0 = _
  rw [summarize_foldl_lookup]
  have h1 : week1Sum (0 + 7) [shiftC5a, shiftC5b] 0 = 41 := by
    have hlist : week1Sum (0 + 7) [shiftC5a, shiftC5b] 0 =
        shiftHours shiftC5a + (shiftHours shiftC5b + 0) := by
      rw [week1Sum, List.filter_cons_of_pos (by decide),
        List.filter_cons_of_pos (by decide), List.filter_nil,
        List.map_cons, List.map_cons, List.map_nil,
        List.sum_cons, List.sum_cons, List.sum_nil]
    rw [hlist, shiftC5a_hours, shiftC5b_hours]
    norm_num
  have h2 : week2Sum (0 + 7) [shiftC5a, shiftC5b] 0 = 0 := by
    rw [week2Sum, List.filter_cons_of_neg (by decide),
      List.filter_cons_of_neg (by decide), List.filter_nil,
      List.map_nil, List.sum_nil]
  have h3 : totalSum [shiftC5a, shiftC5b] 0 = 41 := by
    have hlist : totalSum [shiftC5a, shiftC5b] 0 =
        shiftHours shiftC5a + (shiftHours shiftC5b + 0) := by
      rw [totalSum, List.filter_cons_of_pos (by decide),
        List.filter_cons_of_pos (by decide), List.filter_nil,
        List.map_cons, List.map_cons, List.map_nil,
        List.sum_cons, List.sum_cons, List.sum_nil]
    rw [hlist, shiftC5a_hours, shiftC5b_hours]
    norm_num
  rw [h1, h2, h3]
  simp [lookupWH]

/-- C5, counterexample: with week-1 hours of 41 and a configured HourLimit
of 45 hours per week for the pair, the rendered week-1 warning flag is
raised even though the configured limit is not exceeded — the code compares
against a fixed 40, not against the HourLimit. -/
theorem breach_flag_ignores_limit_counterexample :
    weekFlags (renderSummary 0 [shiftC5a, shiftC5b]) 0 = (true, false) ∧
    specBreachFlag hourLimitC5
      ((lookupWH (renderSummary 0 [shiftC5a, shiftC5b]) 0).week1) = false := by
  constructor
  · rw [weekFlags, scenario_summary_41]
    have hw1 : hoursWarning (41 : ℚ) = true := by
      have ht : toFixed2 (41 : ℚ) = 41 := by
        norm_num [toFixed2, round_eq]
      simp [hoursWarning, ht]
      norm_num
    have hw2 : hoursWarning (0 : ℚ) = false := by
      have ht : toFixed2 (0 : ℚ) = 0 := by
        norm_num [toFixed2, round_eq]
      simp [hoursWarning, ht]
    rw [hw1, hw2]
  · rw [scenario_summary_41]
    simp [specBreachFlag, hourLimitC5]
    norm_num

/-- C5, amended: the week-1 and week-2 warning flags rendered by the period
summary compare the week totals (rounded to two decimals) against the fixed
literal 40, regardless of any configured HourLimit or alert_threshold; in
the scenario with 41 week-1 hours the week-1 flag is raised and week 2 is
unaffected (which coincides with the claim's concrete 40-hour case). -/
theorem breach_flag_fixed_forty (ps : Nat) (shifts : List Shift) (n : Nat) :
    weekFlags (renderSummary ps shifts) n =
      (hoursWarning (week1Sum (ps + 7) shifts n),
        hoursWarning (week2Sum (ps + 7) shifts n)) ∧
    weekFlags (renderSummary 0 [shiftC5a, shiftC5b]) 0 = (true, false) := by
  constructor
  · rw [weekFlags]
    show (hoursWarning (lookupWH (shifts.foldl (addShiftHours (ps + 7)) []) n).week1,
        hoursWarning (lookupWH (shifts.foldl (addShiftHours (ps + 7)) []) n).week2) = _
    rw [summarize_foldl_lookup]
    simp [lookupWH]
  · rw [weekFlags, scenario_summary_41]
    have hw1 : hoursWarning (41 : ℚ) = true := by
      have ht : toFixed2 (41 : ℚ) = 41 := by
        norm_num [toFixed2, round_eq]
      simp [hoursWarning, ht]
      norm_num
    have hw2 : hoursWarning (0 : ℚ) = false := by
      have ht : toFixed2 (0 : ℚ) = 0 := by
        norm_num [toFixed2, round_eq]
      simp [hoursWarning, ht]
    rw [hw1, hw2]

/-- Scanning the pairs of a same-key filtered list equals scanning the whole
list with the body guarded by a key-equality test. -/
theorem filterMap_filter_key {α β : Type} (key : α → Nat)
    (f : α → α → Option β) (x : α) (l : List α) :
    (l.filter (fun y => key y == key x)).filterMap (f x) =
      l.filterMap (fun y => if key x = key y then f x y else none) := by
  rw [List.filterMap_filter]
  apply List.filterMap_congr
  intro y _
  by_cases h : key y = key x
  · rw [if_pos (by simp [h]), if_pos h.symm]
  · rw [if_neg (by simp [h]), if_neg (fun hc => h hc.symm)]

/-- Grouping a list by a key and scanning the pairs inside each group emits,
up to permutation, exactly one element per same-key position pair of the
original list: the heart of the conflict-detection claim. -/
theorem flatMap_grouped_perm {α β : Type} (key : α → Nat)
    (f : α → α → Option β) (l : List α) :
    ∀ keys : List Nat, keys.Nodup → (∀ x ∈ l, key x ∈ keys) →
      (keys.flatMap
          (fun k => pairScan f (l.filter (fun x => key x == k)))).Perm
        (pairScan (fun x y => if key x = key y then f x y else none) l) := by
  induction l with
  | nil =>
    intro keys _ _
    have hnil : keys.flatMap
        (fun k => pairScan f (List.filter (fun x => key x == k) [])) = [] :=
      List.flatMap_eq_nil_iff.mpr (fun k _ => rfl)
    rw [hnil]
    exact List.Perm.refl _
  | cons x xs ih =>
    intro keys hnd hmem
    have hx : key x ∈ keys := hmem x (List.mem_cons_self x xs)
    have hperm : keys.Perm (key x :: keys.erase (key x)) :=
      List.perm_cons_erase hx
    have hmemxs : ∀ a ∈ xs, key a ∈ keys :=
      fun a ha => hmem a (List.mem_cons_of_mem x ha)
    refine List.Perm.trans (List.Perm.flatMap_right _ hperm) ?_
    rw [List.flatMap_cons]
    have hhead : (x :: xs).filter (fun a => key a == key x) =
        x :: xs.filter (fun a => key a == key x) :=
      List.filter_cons_of_pos (by simp)
    rw [hhead]
    show ((xs.filter (fun a => key a == key x)).filterMap (f x) ++
        pairScan f (xs.filter (fun a => key a == key x)) ++
        (keys.erase (key x)).flatMap
          (fun k => pairScan f ((x :: xs).filter (fun a => key a == k)))).Perm
      (pairScan (fun a b => if key a = key b then f a b else none) (x :: xs))
    have htail : ∀ k ∈ keys.erase (key x),
        pairScan f ((x :: xs).filter (fun a => key a == k)) =
          pairScan f (xs.filter (fun a => key a == k)) := by
      intro k hk
      have hkx : k ≠ key x := by
        intro hc
        rw [hc] at hk
        exact (List.Nodup.not_mem_erase hnd) hk
      have hxk : ¬ key x = k := fun hc => hkx hc.symm
      rw [List.filter_cons_of_neg (by simp [hxk])]
    have htailperm : ((keys.erase (key x)).flatMap
          (fun k => pairScan f ((x :: xs).filter (fun a => key a == k)))).Perm
        ((keys.erase (key x)).flatMap
          (fun k => pairScan f (xs.filter (fun a => key a == k)))) :=
      List.Perm.flatMap_left _ (fun k hk => by rw [htail k hk])
    rw [List.append_assoc]
    refine List.Perm.trans
      (List.Perm.append_left _ (List.Perm.append_left _ htailperm)) ?_
    have hregroup : (pairScan f (xs.filter (fun a => key a == key x)) ++
        (keys.erase (key x)).flatMap
          (fun k => pairScan f (xs.filter (fun a => key a == k)))).Perm
        (keys.flatMap (fun k => pairScan f (xs.filter (fun a => key a == k)))) := by
      have : pairScan f (xs.filter (fun a => key a == key x)) ++
          (keys.erase (key x)).flatMap
            (fun k => pairScan f (xs.filter (fun a => key a == k))) =
          (key x :: keys.erase (key x)).flatMap
            (fun k => pairScan f (xs.filter (fun a => key a == k))) := by
        rw [List.flatMap_cons]
      rw [this]
      exact List.Perm.flatMap_right _ hperm.symm
    refine List.Perm.trans (List.Perm.append_left _ hregroup) ?_
    refine List.Perm.trans
      (List.Perm.append_left _ (ih keys hnd hmemxs)) ?_
    rw [filterMap_filter_key key f x xs]
    exact List.Perm.refl _

/-- Every element produced by the pair scan comes from the body applied to
some pair. -/
theorem mem_pairScan {α β : Type} (f : α → α → Option β) (l : List α)
    (b : β) (hb : b ∈ pairScan f l) : ∃ x y, f x y = some b := by
  induction l with
  | nil => exact absurd hb (List.not_mem_nil b)
  | cons x xs ih =>
    rcases List.mem_append.mp hb with hhead | htail
    · obtain ⟨y, _, hy⟩ := List.mem_filterMap.mp hhead
      exact ⟨x, y, hy⟩
    · exact ih htail

/-- The employee-loop body only produces employee-type conflicts. -/
theorem employeePair_ctype (x y : Shift) (c : Conflict)
    (h : employeePair x y = some c) : c.ctype = ConflictType.employee := by
  unfold employeePair at h
  split at h
  · exact Option.noConfusion h
  · split at h
    · cases hov : calculateTimeOverlap x y with
      | none => rw [hov] at h; exact Option.noConfusion h
      | some d =>
        rw [hov] at h
        simp only [Option.map_some', Option.some.injEq] at h
        rw [← h]
    · exact Option.noConfusion h

/-- The child-loop body only produces child-type conflicts. -/
theorem childPair_ctype (x y : Shift) (c : Conflict)
    (h : childPair x y = some c) : c.ctype = ConflictType.child := by
  unfold childPair at h
  split at h
  · exact Option.noConfusion h
  · split at h
    · cases hov : calculateTimeOverlap x y with
      | none => rw [hov] at h; exact Option.noConfusion h
      | some d =>
        rw [hov] at h
        simp only [Option.map_some', Option.some.injEq] at h
        rw [← h]
    · exact Option.noConfusion h

/-- The grouped employee scan emits, up to order, exactly one conflict per
qualifying same-employee position pair of the input. -/
theorem employeeConflicts_perm (shifts : List Shift) :
    (employeeConflicts shifts).Perm (qualifyingEmployeeConflicts shifts) := by
  have hnd : (keysAsc (shifts.map (fun s => s.employee_id))).Nodup := by
    unfold keysAsc
    exact (List.perm_insertionSort (· ≤ ·) _).nodup_iff.mpr
      (List.nodup_dedup _)
  have hmem : ∀ x ∈ shifts,
      x.employee_id ∈ keysAsc (shifts.map (fun s => s.employee_id)) := by
    intro x hx
    unfold keysAsc
    exact (List.perm_insertionSort (· ≤ ·) _).mem_iff.mpr
      (List.mem_dedup.mpr (List.mem_map_of_mem _ hx))
  exact flatMap_grouped_perm (fun s => s.employee_id) employeePair shifts
    (keysAsc (shifts.map (fun s => s.employee_id))) hnd hmem

/-- The grouped child scan emits, up to order, exactly one conflict per
qualifying same-child position pair of the input. -/
theorem childConflicts_perm (shifts : List Shift) :
    (childConflicts shifts).Perm (qualifyingChildConflicts shifts) := by
  have hnd : (keysAsc (shifts.map (fun s => s.child_id))).Nodup := by
    unfold keysAsc
    exact (List.perm_insertionSort (· ≤ ·) _).nodup_iff.mpr
      (List.nodup_dedup _)
  have hmem : ∀ x ∈ shifts,
      x.child_id ∈ keysAsc (shifts.map (fun s => s.child_id)) := by
    intro x hx
    unfold keysAsc
    exact (List.perm_insertionSort (· ≤ ·) _).mem_iff.mpr
      (List.mem_dedup.mpr (List.mem_map_of_mem _ hx))
  exact flatMap_grouped_perm (fun s => s.child_id) childPair shifts
    (keysAsc (shifts.map (fun s => s.child_id))) hnd hmem

/-- Every conflict in the employee half has employee type. -/
theorem employeeConflicts_all_employee (shifts : List Shift) :
    ∀ c ∈ employeeConflicts shifts, c.ctype = ConflictType.employee := by
  intro c hc
  obtain ⟨k, _, hk⟩ := List.mem_flatMap.mp hc
  obtain ⟨x, y, hxy⟩ := mem_pairScan _ _ c hk
  exact employeePair_ctype x y c hxy

/-- Every conflict in the child half has child type. -/
theorem childConflicts_all_child (shifts : List Shift) :
    ∀ c ∈ childConflicts shifts, c.ctype = ConflictType.child := by
  intro c hc
  obtain ⟨k, _, hk⟩ := List.mem_flatMap.mp hc
  obtain ⟨x, y, hxy⟩ := mem_pairScan _ _ c hk
  exact childPair_ctype x y c hxy

/-- C1: conflict detection groups by employee_id and by child_id; the
employee-type conflicts it emits are, as a multiset, exactly one record per
position pair of the input with equal employee ids whose loop body fires
(different child, same date, positive overlap), and symmetrically for the
child-type conflicts; in the concrete scenario (one employee, children 1
and 2, 09:00-13:00 and 12:00-15:00 on one date) exactly one employee-type
conflict is emitted, with overlap duration 1:00 (60 minutes). -/
theorem conflict_detection_exact :
    (∀ shifts : List Shift,
      ((detectOverlaps shifts).filter
          (fun c => c.ctype == ConflictType.employee)).Perm
        (qualifyingEmployeeConflicts shifts) ∧
      ((detectOverlaps shifts).filter
          (fun c => c.ctype == ConflictType.child)).Perm
        (qualifyingChildConflicts shifts)) ∧
    detectOverlaps [shiftC1a, shiftC1b] =
      [⟨ConflictType.employee, shiftC1a, shiftC1b, ⟨1, 0⟩⟩] ∧
    minutesToDuration 60 = ⟨1, 0⟩ := by
  refine ⟨?_, ?_, ?_⟩
  · intro shifts
    constructor
    · rw [detectOverlaps, List.filter_append]
      rw [List.filter_eq_self.mpr (fun c hc => by
        simp [employeeConflicts_all_employee shifts c hc])]
      rw [List.filter_eq_nil_iff.mpr (fun c hc => by
        simp [childConflicts_all_child shifts c hc])]
      rw [List.append_nil]
      exact employeeConflicts_perm shifts
    · rw [detectOverlaps, List.filter_append]
      rw [List.filter_eq_nil_iff.mpr (fun c hc => by
        simp [employeeConflicts_all_employee shifts c hc])]
      rw [List.filter_eq_self.mpr (fun c hc => by
        simp [childConflicts_all_child shifts c hc])]
      rw [List.nil_append]
      exact childConflicts_perm shifts
  · decide
  · decide

end Evvie
